import Mathlib

/-!
Verification of the OCR attendance core of the Kingshot Discord bot.

The definitions below are shallow embeddings of the Python source:
* `src/ocr_attendance_enhanced.py` — record extraction, duplicate
  resolution, rank inference;
* `src/web/services/ocr.py` — the consensus upsert of
  `match_and_store_scores`.

Machine reals (OCR confidences, bounding-box coordinates, similarity
percentages, the `data_confidence` score) are modelled as exact rationals;
Python `None`-able integers are `Option Int` and Python truthiness on them
(`if x:`) is the predicate `truthy` below.  Python string primitives
(`lower`, `split`, `strip`, `in`) are re-implemented over character lists
with Python's semantics.
-/

namespace KingshotOCR

/-- One candidate player entry: the dictionary built by
`extract_player_scores` (src/ocr_attendance_enhanced.py lines 109-118) and
mutated by the later stages.  The `rank_inferred` key is absent until
`infer_missing_ranks` sets it and a missing key reads as `false`
(`player.get('rank_inferred', False)`), so it is a plain `Bool` field
defaulting to `false`. -/
structure PlayerData where
  player_name : String
  raw_name : String
  ranking : Option Int
  damage_points : Option Int
  confidence : ℚ
  image_source : String
  bbox_y : ℚ
  is_sticky_card : Bool
  rank_inferred : Bool := false
  deriving DecidableEq, Repr

/-- Python truthiness of a nullable integer: `None` and `0` are falsy. -/
def truthy : Option Int → Bool
  | none => false
  | some n => n != 0

/-- Python `str.lower()` (character-wise lowercasing). -/
def pyLower (s : String) : String := String.mk (s.toList.map Char.toLower)

/-- Length of a longest common subsequence of two character lists, by the
classical recursion, written with explicit fuel so that it evaluates by
kernel reduction.  Fuel `|s| + |t|` is always sufficient (`lcsFuel` is only
consulted while both lists are nonempty, and each step removes at least one
element). -/
def lcsFuel : Nat → List Char → List Char → Nat
  | 0, _, _ => 0
  | _ + 1, [], _ => 0
  | _ + 1, _ :: _, [] => 0
  | fuel + 1, a :: s, b :: t =>
      if a = b then lcsFuel fuel s t + 1
      else max (lcsFuel fuel (a :: s) t) (lcsFuel fuel s (b :: t))

/-- Length of a longest common subsequence of two character lists. -/
def lcs (s t : List Char) : Nat := lcsFuel (s.length + t.length) s t

/-- `rapidfuzz.fuzz.ratio`: similarity of two strings on a 0-100 scale,
`100 * (1 - indel_distance / (|s| + |t|))`.  The indel distance (Levenshtein
with substitution cost 2) equals `|s| + |t| - 2 * lcs s t`, so the ratio is
`200 * lcs / (|s| + |t|)` (and `100` for two empty strings). -/
def fuzzSimilarity (s t : String) : ℚ :=
  let n := s.length + t.length
  if n = 0 then 100 else (200 * lcs s.toList t.toList : ℚ) / n

/-- The `rank_match` flag of `is_fuzzy_duplicate`
(src/ocr_attendance_enhanced.py lines 495-501): both ranks truthy and at
most 1 apart. -/
def rankWithinOne (d1 d2 : PlayerData) : Bool :=
  truthy d1.ranking && truthy d2.ranking &&
    decide ((d1.ranking.getD 0 - d2.ranking.getD 0).natAbs ≤ 1)

/-- The `score_match` flag of `is_fuzzy_duplicate`
(src/ocr_attendance_enhanced.py lines 503-513): both damage values truthy,
their maximum positive, and the percentage difference relative to the
maximum below 1. -/
def scoreWithinOnePercent (d1 d2 : PlayerData) : Bool :=
  truthy d1.damage_points && truthy d2.damage_points &&
    (let v1 := d1.damage_points.getD 0
     let v2 := d2.damage_points.getD 0
     let maxDamage := max v1 v2
     decide (0 < maxDamage) &&
       decide (((v1 - v2).natAbs : ℚ) / (maxDamage : ℚ) * 100 < 1))

/-- The fuzzy-collision predicate `is_fuzzy_duplicate` defined inside
`process_event_screenshots` (src/ocr_attendance_enhanced.py lines 481-526):
names are lowercased, compared with `fuzz.ratio`, and the three-branch
`if`/`elif` chain decides duplicate status. -/
def is_fuzzy_duplicate (data1 data2 : PlayerData) : Bool :=
  let nameSimilarity :=
    fuzzSimilarity (pyLower data1.player_name) (pyLower data2.player_name)
  let rank_match := rankWithinOne data1 data2
  let score_match := scoreWithinOnePercent data1 data2
  if 95 ≤ nameSimilarity then true
  else if 85 ≤ nameSimilarity ∧ (rank_match || score_match) = true then true
  else if (rank_match && score_match) = true ∧ 70 ≤ nameSimilarity then true
  else false

/-- Reassignment `unique_players[name] = data` for a key already present in
the dictionary: the value is replaced, the key keeps its position. -/
def setKey (acc : List (String × PlayerData)) (name : String)
    (data : PlayerData) : List (String × PlayerData) :=
  acc.map (fun p => if p.1 = name then (p.1, data) else p)

/-- One iteration of the duplicate-resolution loop of
`process_event_screenshots` (src/ocr_attendance_enhanced.py lines 528-581)
on the insertion-ordered dictionary `unique_players`, modelled as an
association list (Python dictionaries preserve insertion order;
`del` followed by a fresh assignment moves the entry to the end). -/
def dedupStep (acc : List (String × PlayerData)) (data : PlayerData) :
    List (String × PlayerData) :=
  let name := data.player_name
  match acc.find? (fun p => p.1 == name) with
  | some existing =>
      if data.is_sticky_card && !existing.2.is_sticky_card then acc
      else if !data.is_sticky_card && existing.2.is_sticky_card then
        setKey acc name data
      else if data.confidence > existing.2.confidence then
        setKey acc name data
      else acc
  | none =>
      match acc.find? (fun p => is_fuzzy_duplicate data p.2) with
      | some existingEntry =>
          if data.is_sticky_card && !existingEntry.2.is_sticky_card then acc
          else if !data.is_sticky_card && existingEntry.2.is_sticky_card then
            (acc.filter (fun p => p.1 != existingEntry.1)) ++ [(name, data)]
          else if data.confidence > existingEntry.2.confidence then
            (acc.filter (fun p => p.1 != existingEntry.1)) ++ [(name, data)]
          else acc
      | none => acc ++ [(name, data)]

/-- The duplicate-resolution pass of `process_event_screenshots`
(src/ocr_attendance_enhanced.py lines 476-583): fold the loop body over the
concatenated record list and return `list(unique_players.values())`. -/
def resolveDuplicates (l : List PlayerData) : List PlayerData :=
  (l.foldl dedupStep []).map Prod.snd

/-- Rank equality with Python truthiness guards, for the spec-side
fuzzy-collision predicate: the spec's clause (c) requires the ranks to be
equal, not merely within 1. -/
def ranksEqual (d1 d2 : PlayerData) : Bool :=
  truthy d1.ranking && truthy d2.ranking &&
    decide (d1.ranking.getD 0 = d2.ranking.getD 0)

/-- The claim's fuzzy-collision predicate, written from the spec's words:
same player iff (a) similarity ≥ 95, or (b) similarity ≥ 85 and (ranks
within 1 or scores within 1%), or (c) ranks EQUAL and scores within 1% and
similarity ≥ 70, and under no other condition.  Present/nonzero guards on
ranks and scores follow the code's truthiness. -/
def claimFuzzyDuplicate (d1 d2 : PlayerData) : Bool :=
  let nameSimilarity :=
    fuzzSimilarity (pyLower d1.player_name) (pyLower d2.player_name)
  decide (95 ≤ nameSimilarity) ||
    (decide (85 ≤ nameSimilarity) &&
      (rankWithinOne d1 d2 || scoreWithinOnePercent d1 d2)) ||
    (ranksEqual d1 d2 && scoreWithinOnePercent d1 d2 &&
      decide (70 ≤ nameSimilarity))

/-- The claim's fuzzy-collision predicate amended to match the code: clause
(c) asks for ranks within 1 of each other (the code's `rank_match`) instead
of exactly equal ranks. -/
def claimFuzzyDuplicateAmended (d1 d2 : PlayerData) : Bool :=
  let nameSimilarity :=
    fuzzSimilarity (pyLower d1.player_name) (pyLower d2.player_name)
  decide (95 ≤ nameSimilarity) ||
    (decide (85 ≤ nameSimilarity) &&
      (rankWithinOne d1 d2 || scoreWithinOnePercent d1 d2)) ||
    (rankWithinOne d1 d2 && scoreWithinOnePercent d1 d2 &&
      decide (70 ≤ nameSimilarity))

/-- Concrete record: rank 3, damage 10000, confidence 0.7, not sticky.
Its name is within fuzz-ratio 88.9 of `recB`'s and `recC`'s names. -/
def recA : PlayerData :=
  { player_name := "aaaaaaaab", raw_name := "aaaaaaaab", ranking := some 3,
    damage_points := some 10000, confidence := 7/10, image_source := "i",
    bbox_y := 0, is_sticky_card := false }

/-- Concrete record: rank 5, damage 20000, confidence 0.7, not sticky. -/
def recB : PlayerData :=
  { player_name := "aaaaaaaac", raw_name := "aaaaaaaac", ranking := some 5,
    damage_points := some 20000, confidence := 7/10, image_source := "i",
    bbox_y := 0, is_sticky_card := false }

/-- Concrete record: rank 4, damage 30000, confidence 0.9, not sticky.
It is a fuzzy duplicate of both `recA` and `recB` (ranks within 1), while
`recA` and `recB` are not fuzzy duplicates of each other. -/
def recC : PlayerData :=
  { player_name := "aaaaaaaad", raw_name := "aaaaaaaad", ranking := some 4,
    damage_points := some 30000, confidence := 9/10, image_source := "i",
    bbox_y := 0, is_sticky_card := false }

/-- Concrete record: rank 3, damage 10000; its name has fuzz-ratio exactly
70 against `recE`'s name. -/
def recD : PlayerData :=
  { player_name := "aaaaaaabbb", raw_name := "aaaaaaabbb", ranking := some 3,
    damage_points := some 10000, confidence := 7/10, image_source := "i",
    bbox_y := 0, is_sticky_card := false }

/-- Concrete record: rank 4 (adjacent to `recD`'s rank, not equal), same
damage as `recD`, name similarity 70. -/
def recE : PlayerData :=
  { player_name := "aaaaaaaccc", raw_name := "aaaaaaaccc", ranking := some 4,
    damage_points := some 10000, confidence := 7/10, image_source := "i",
    bbox_y := 0, is_sticky_card := false }

/-- Concrete record unrelated to `recA`: dissimilar name, distant rank and
score, so the two never collide in the dedup pass. -/
def recF : PlayerData :=
  { player_name := "zzzzz", raw_name := "zzzzz", ranking := some 10,
    damage_points := some 500000, confidence := 8/10, image_source := "i",
    bbox_y := 50, is_sticky_card := false }

/-- A sticky copy of `recA` carrying a strictly higher confidence. -/
def recASticky : PlayerData :=
  { recA with is_sticky_card := true, confidence := 99/100 }

/-- The body of one iteration of `infer_missing_ranks`
(src/ocr_attendance_enhanced.py lines 198-231) for a single record:
`prevRank` is the ranking of the already-processed predecessor (or `none`
at the top of the list), `next` is the not-yet-processed successor, still
carrying its original ranking.  A record with a ranking is untouched;
otherwise the predecessor's ranking plus one is preferred, then the
successor's ranking minus one provided that stays at least 1; a filled rank
sets `rank_inferred` to `true`, an unfillable one sets it to `false`. -/
def inferStep (prevRank : Option Int) (p : PlayerData)
    (next : Option PlayerData) : PlayerData :=
  match p.ranking with
  | some _ => p
  | none =>
      match prevRank with
      | some r => { p with ranking := some (r + 1), rank_inferred := true }
      | none =>
          match next.bind (fun q => q.ranking) with
          | some r =>
              if 1 ≤ r - 1 then
                { p with ranking := some (r - 1), rank_inferred := true }
              else { p with rank_inferred := false }
          | none => { p with rank_inferred := false }

/-- The in-place loop of `infer_missing_ranks`: records are processed top
to bottom, and a ranking written at one position is visible as the
predecessor ranking of the next iteration. -/
def inferLoop : Option Int → List PlayerData → List PlayerData
  | _, [] => []
  | prevRank, p :: rest =>
      let p' := inferStep prevRank p rest.head?
      p' :: inferLoop p'.ranking rest

/-- `infer_missing_ranks` (src/ocr_attendance_enhanced.py lines 187-232).
The source first sorts `player_data_list` by `(image_source, bbox_y)`
(Python's stable sort) and then runs the mutating loop over the sorted
list; the embedding takes that sorted list as its input, which is how the
claims quantify ("for every record list sorted by ..."). -/
def infer_missing_ranks (sortedPlayers : List PlayerData) : List PlayerData :=
  inferLoop none sortedPlayers

/-- The ranking the loop sees as "player above" when it processes position
`i` of a result list `res`: the seed ranking at position 0, and the
(already rewritten) ranking stored at `i - 1` afterwards. -/
def prevRankAt (prevRank : Option Int) (res : List PlayerData) :
    Nat → Option Int
  | 0 => prevRank
  | n + 1 => (res.get? n).bind (fun p => p.ranking)

/-- Concrete record with ranking 3 for the spec's worked example. -/
def exRank3 : PlayerData :=
  { player_name := "[AB]one", raw_name := "[AB]one", ranking := some 3,
    damage_points := some 100, confidence := 9/10, image_source := "i",
    bbox_y := 10, is_sticky_card := false }

/-- Concrete unranked record for the spec's worked example. -/
def exRankNone : PlayerData :=
  { player_name := "[AB]two", raw_name := "[AB]two", ranking := none,
    damage_points := some 200, confidence := 9/10, image_source := "i",
    bbox_y := 20, is_sticky_card := false }

/-- Concrete record with ranking 5 for the spec's worked example. -/
def exRank5 : PlayerData :=
  { player_name := "[AB]three", raw_name := "[AB]three", ranking := some 5,
    damage_points := some 300, confidence := 9/10, image_source := "i",
    bbox_y := 30, is_sticky_card := false }

/-- A second unranked concrete record, below `exRankNone`. -/
def exRankNone2 : PlayerData :=
  { player_name := "[AB]four", raw_name := "[AB]four", ranking := none,
    damage_points := some 400, confidence := 9/10, image_source := "i",
    bbox_y := 40, is_sticky_card := false }

/-- One raw OCR detection, as consumed by `extract_player_scores`
(src/ocr_attendance_enhanced.py lines 76-129): a quadrilateral bounding box
(`bbox0` is the top-left corner `bbox[0]`, `bbox2` the bottom-right corner
`bbox[2]`; the other two corners are carried but unused), the recognised
text, and the OCR confidence. -/
structure Detection where
  bbox0 : ℚ × ℚ
  bbox1 : ℚ × ℚ
  bbox2 : ℚ × ℚ
  bbox3 : ℚ × ℚ
  text : String
  confidence : ℚ
  deriving DecidableEq, Repr

/-- Python `str.strip()`: whitespace removed from both ends. -/
def pyStrip (s : String) : String :=
  String.mk
    (((s.toList.dropWhile Char.isWhitespace).reverse.dropWhile
      Char.isWhitespace).reverse)

/-- Python `text.startswith('[')`. -/
def startsBracket (s : String) : Bool :=
  match s.toList with
  | '[' :: _ => true
  | _ => false

/-- `clean_player_name` (src/ocr_attendance_enhanced.py lines 181-185):
no cleanup beyond `strip()`. -/
def clean_player_name (rawName : String) : String := pyStrip rawName

/-- One candidate split of the regex `[A-Za-z0-9]{2,4}` at width `k`,
followed by `]` and one more alphanumeric character. -/
def validTagFrom (cs : List Char) (k : Nat) : Bool :=
  decide ((cs.take k).length = k) && (cs.take k).all Char.isAlphanum &&
    (match cs.drop k with
     | ']' :: c :: _ => c.isAlphanum
     | _ => false)

/-- `is_valid_alliance_name_format` (src/ocr_attendance_enhanced.py lines
172-179): `re.match` of `^\x5b[A-Za-z0-9]{2,4}\x5d[A-Za-z0-9]`; since the
character after the greedy 2-4 repetition must be `]`, the match succeeds
exactly when some width 2, 3 or 4 works. -/
def is_valid_alliance_name_format (name : String) : Bool :=
  match name.toList with
  | '[' :: rest =>
      validTagFrom rest 2 || validTagFrom rest 3 || validTagFrom rest 4
  | _ => false

/-- Python `str.isdigit()` for the ASCII digits produced by OCR:
nonempty and all digits. -/
def pyIsDigit (s : String) : Bool :=
  !s.toList.isEmpty && s.toList.all Char.isDigit

/-- Decimal value of a digit string. -/
def digitsToNat (cs : List Char) : Nat :=
  cs.foldl (fun a c => a * 10 + (c.toNat - 48)) 0

/-- `find_nearby_ranking` (src/ocr_attendance_enhanced.py lines 131-146):
the first detection whose text is a number 1-50, vertically within 50 of
the player name's top edge and starting left of it. -/
def find_nearby_ranking (texts : List Detection) (playerBbox0 : ℚ × ℚ) :
    Option Int :=
  (texts.find? (fun t =>
    pyIsDigit t.text &&
      (let v := digitsToNat t.text.toList
       decide (1 ≤ v) && decide (v ≤ 50) &&
         decide (|t.bbox0.2 - playerBbox0.2| < 50) &&
         decide (t.bbox0.1 < playerBbox0.1)))).map
    (fun t => (digitsToNat t.text.toList : Int))

/-- Substring test on character lists (Python `needle in hay`). -/
def containsSub : List Char → List Char → Bool
  | needle, [] => needle.isEmpty
  | needle, c :: t => needle.isPrefixOf (c :: t) || containsSub needle t

/-- Maximal runs of characters satisfying `p` (the matches of the regex
`[\x5cd,]+` when `p` accepts digits and commas). -/
def runsOf (p : Char → Bool) : List Char → List (List Char)
  | [] => []
  | c :: cs =>
      let r := runsOf p cs
      if p c then
        match cs with
        | c2 :: _ =>
            if p c2 then
              match r with
              | g :: gs => (c :: g) :: gs
              | [] => [[c]]
            else [c] :: r
        | [] => [[c]]
      else r

/-- `find_nearby_damage_score` (src/ocr_attendance_enhanced.py lines
148-170): scan for a detection strictly below the name's bottom edge and
within 100 of it whose lowercased text contains "damage point"; take the
last digit-or-comma run of that text, drop the commas, and parse; a run
with no digits left fails `int()` and the scan continues. -/
def findDamageLoop (playerYBottom : ℚ) : List Detection → Option Int
  | [] => none
  | t :: rest =>
      if decide (playerYBottom < t.bbox0.2) &&
          decide (t.bbox0.2 < playerYBottom + 100) &&
          containsSub "damage point".toList (t.text.toList.map Char.toLower)
      then
        match (runsOf (fun c => c.isDigit || c == ',') t.text.toList).getLast?
        with
        | some run =>
            let ds := run.filter (fun c => c != ',')
            if ds.isEmpty then findDamageLoop playerYBottom rest
            else some (digitsToNat ds : Int)
        | none => findDamageLoop playerYBottom rest
      else findDamageLoop playerYBottom rest

/-- `find_nearby_damage_score` entry point: the name's bottom edge is
`bbox[2][1]`. -/
def find_nearby_damage_score (texts : List Detection)
    (playerBbox2 : ℚ × ℚ) : Option Int :=
  findDamageLoop playerBbox2.2 texts

/-- `max(bbox[2][1] for ...) if texts else 0`
(src/ocr_attendance_enhanced.py line 85): the maximum bottom edge over the
given detections. -/
def maxBottomY (texts : List Detection) : ℚ :=
  match texts.map (fun t => t.bbox2.2) with
  | [] => 0
  | y :: ys => ys.foldl max y

/-- The record built for one accepted name detection
(src/ocr_attendance_enhanced.py lines 99-118): the sticky flag compares the
name's bottom edge against 0.80 times the maximum bottom edge over ALL
detections of the image. -/
def mkPlayerEntry (texts : List Detection) (imageName : String)
    (d : Detection) : PlayerData :=
  { player_name := clean_player_name d.text
    raw_name := d.text
    ranking := find_nearby_ranking texts d.bbox0
    damage_points := find_nearby_damage_score texts d.bbox2
    confidence := d.confidence
    image_source := imageName
    bbox_y := d.bbox0.2
    is_sticky_card := decide (d.bbox2.2 > maxBottomY texts * 0.80) }

/-- `extract_player_scores` (src/ocr_attendance_enhanced.py lines 76-129):
keep each detection that starts with `[`, has confidence above 0.6 and a
valid alliance-tag format after cleaning, and build its player entry. -/
def extract_player_scores (ocrResults : List Detection)
    (imageName : String) : List PlayerData :=
  ocrResults.filterMap (fun d =>
    if startsBracket d.text && decide (d.confidence > 0.6) then
      if is_valid_alliance_name_format (clean_player_name d.text) then
        some (mkPlayerEntry ocrResults imageName d)
      else none
    else none)

/-- The detections of an image that yield name records. -/
def nameDetections (texts : List Detection) : List Detection :=
  texts.filter (fun d =>
    startsBracket d.text && decide (d.confidence > 0.6) &&
      is_valid_alliance_name_format (clean_player_name d.text))

/-- The claim's sticky criterion, written from the spec's words: lower edge
strictly below 0.8 times the maximum vertical extent computed across the
NAME detections of the image (the code uses all detections instead). -/
def stickyPerClaim (texts : List Detection) (d : Detection) : Bool :=
  decide (d.bbox2.2 > maxBottomY (nameDetections texts) * 0.80)

/-- Concrete name detection whose bottom edge (y = 100) is the lowest among
name detections but well above the bottom 20% of the whole image. -/
def detName : Detection :=
  { bbox0 := (10, 80), bbox1 := (60, 80), bbox2 := (60, 100),
    bbox3 := (10, 100), text := "[AB]x", confidence := 9/10 }

/-- Concrete non-name detection extending down to y = 200, which the code
includes in the vertical extent used for the sticky threshold. -/
def detOther : Detection :=
  { bbox0 := (10, 180), bbox1 := (60, 180), bbox2 := (60, 200),
    bbox3 := (10, 200), text := "note", confidence := 9/10 }

/-- A persisted `OCREventData` row (src/web/ocr_models.py) with the fields
the consensus upsert reads and writes.  `event_date` is a timestamp
measured in days, so the calendar day of a datetime `t` is `⌊t⌋` and the
code's window `[strptime(strftime('%Y-%m-%d')), +1 day)` is
`[⌊t⌋, ⌊t⌋ + 1)`.  `verified_sessions` is the comma-joined session-id
string exactly as the column stores it. -/
structure OCREventData where
  event_name : String
  event_type : String
  event_date : ℚ
  player_name : String
  player_fid : Option String
  ranking : Option Int
  rank_inferred : Bool
  damage_points : Option Int
  ocr_confidence : ℚ
  image_source : String
  processing_session : String
  verification_count : Int
  verified_sessions : String
  data_confidence : ℚ
  deriving DecidableEq, Repr

/-- Python `s.split(',')` on characters: always at least one group, empty
groups preserved. -/
def splitCommaChars : List Char → List (List Char)
  | [] => [[]]
  | c :: cs =>
      if c = ',' then [] :: splitCommaChars cs
      else
        match splitCommaChars cs with
        | g :: gs => (c :: g) :: gs
        | [] => [[c]]

/-- Python `s.split(',')`. -/
def splitComma (s : String) : List String :=
  (splitCommaChars s.toList).map (fun cs => String.mk cs)

/-- Python `','.join(l)` on characters. -/
def joinCommaChars : List (List Char) → List Char
  | [] => []
  | [g] => g
  | g :: gs => g ++ ',' :: joinCommaChars gs

/-- Python `','.join(l)`. -/
def joinComma (l : List String) : String :=
  String.mk (joinCommaChars (l.map String.toList))

/-- `verified_sessions_list` (src/web/services/ocr.py line 269):
`existing_event.verified_sessions.split(',') if ... else []`. -/
def loadSessions (s : String) : List String :=
  if s = "" then [] else splitComma s

/-- `damage_matches` (src/web/services/ocr.py lines 272-276): both damage
values truthy and within the 1000-point tolerance. -/
def damageMatches (e : OCREventData) (newDamage : Option Int) : Bool :=
  truthy newDamage && truthy e.damage_points &&
    decide ((newDamage.getD 0 - e.damage_points.getD 0).natAbs ≤ 1000)

/-- `ranking_matches` (src/web/services/ocr.py line 278): both rankings
truthy and equal. -/
def rankingMatches (e : OCREventData) (newRanking : Option Int) : Bool :=
  truthy newRanking && truthy e.ranking &&
    decide (newRanking.getD 0 = e.ranking.getD 0)

/-- The verification step (src/web/services/ocr.py lines 268-285): when
the session id is new and the observation agrees, append it to the
verified-sessions string, set the count to the new list length, and
recompute `data_confidence = min(2.0, 1.0 + 0.2 * (count - 1))`. -/
def applyVerification (e : OCREventData) (pd : PlayerData)
    (sessionId : String) : OCREventData :=
  let verifiedSessionsList := loadSessions e.verified_sessions
  if decide (sessionId ∉ verifiedSessionsList) &&
      (damageMatches e pd.damage_points ||
        rankingMatches e pd.ranking) then
    let vl := verifiedSessionsList ++ [sessionId]
    { e with verified_sessions := joinComma vl,
             verification_count := (vl.length : Int),
             data_confidence :=
               min 2 (1 + (2/10) * ((vl.length : ℚ) - 1)) }
  else e

/-- The higher-damage step (src/web/services/ocr.py lines 287-290):
`if new_damage and new_damage > (existing.damage_points or 0)`. -/
def applyDamage (e : OCREventData) (pd : PlayerData)
    (sessionId : String) : OCREventData :=
  if truthy pd.damage_points &&
      decide (e.damage_points.getD 0 < pd.damage_points.getD 0) then
    { e with damage_points := pd.damage_points,
             processing_session := sessionId }
  else e

/-- The missing-ranking step (src/web/services/ocr.py lines 292-294):
adopt the new ranking when the stored one is falsy. -/
def applyRankFill (e : OCREventData) (pd : PlayerData) : OCREventData :=
  if truthy pd.ranking && !truthy e.ranking then
    { e with ranking := pd.ranking }
  else e

/-- The better-ranking step (src/web/services/ocr.py lines 296-298): adopt
a strictly lower new ranking, with no look at either `rank_inferred`
flag. -/
def applyRankLower (e : OCREventData) (pd : PlayerData) : OCREventData :=
  if truthy pd.ranking && truthy e.ranking &&
      decide (pd.ranking.getD 0 < e.ranking.getD 0) then
    { e with ranking := pd.ranking }
  else e

/-- The higher-confidence step (src/web/services/ocr.py lines 300-303). -/
def applyConfidence (e : OCREventData) (pd : PlayerData) : OCREventData :=
  if pd.confidence > e.ocr_confidence then
    { e with ocr_confidence := pd.confidence,
             image_source := pd.image_source }
  else e

/-- The mutation of an existing row by `match_and_store_scores`
(src/web/services/ocr.py lines 263-306), applied in the source's statement
order, each step reading the fields as already mutated by the steps before
it. -/
def updateExistingEvent (e : OCREventData) (pd : PlayerData)
    (sessionId : String) : OCREventData :=
  applyConfidence
    (applyRankLower
      (applyRankFill (applyDamage (applyVerification e pd sessionId) pd
        sessionId) pd) pd) pd

/-- The row created on first sight of an `(event, player, day)` key
(src/web/services/ocr.py lines 241-262): one verification, the session id
as the whole verified-sessions string, confidence 1.0. -/
def newEventRecord (pd : PlayerData) (sessionId eventName eventType : String)
    (eventDate : ℚ) (playerFid : Option String) : OCREventData :=
  { event_name := eventName
    event_type := eventType
    event_date := eventDate
    player_name := pd.player_name
    player_fid := playerFid
    ranking := pd.ranking
    rank_inferred := false
    damage_points := pd.damage_points
    ocr_confidence := pd.confidence
    image_source := pd.image_source
    processing_session := sessionId
    verification_count := 1
    verified_sessions := sessionId
    data_confidence := 1 }

/-- The lookup key of the upsert (src/web/services/ocr.py lines 233-239):
same event name, same player name, and `event_date` inside the calendar-day
window `[day, day + 1)`. -/
def matchesEventKey (eventName playerName : String) (day : Int)
    (e : OCREventData) : Bool :=
  e.event_name == eventName && e.player_name == playerName &&
    decide ((day : ℚ) ≤ e.event_date) && decide (e.event_date < (day : ℚ) + 1)

/-- The `OCREventData` upsert performed by `match_and_store_scores` for one
`player_data` entry (src/web/services/ocr.py lines 232-306): find the
first row matching the `(event_name, player_name, day)` key; create a new
row when there is none, otherwise mutate that row in place.  The
`OCRPlayerMapping` upsert and the matched/unmatched bookkeeping of the
surrounding loop never touch `OCREventData` rows and are omitted. -/
def matchAndStoreEvent (pd : PlayerData)
    (sessionId eventName eventType : String) (eventDate : ℚ)
    (playerFid : Option String) :
    List OCREventData → List OCREventData
  | [] => [newEventRecord pd sessionId eventName eventType eventDate
      playerFid]
  | e :: rest =>
      if matchesEventKey eventName pd.player_name ⌊eventDate⌋ e then
        updateExistingEvent e pd sessionId :: rest
      else
        e :: matchAndStoreEvent pd sessionId eventName eventType eventDate
          playerFid rest

/-- One upload's contribution for a single player: the session id, the
player record, the upload's event datetime, and the matched roster id. -/
structure Upload where
  sessionId : String
  pd : PlayerData
  eventDate : ℚ
  fid : Option String
  deriving Repr

/-- Successive uploads processed against the ledger, in order. -/
def upsertAll (eventName eventType : String) :
    List OCREventData → List Upload → List OCREventData
  | s, [] => s
  | s, u :: us =>
      upsertAll eventName eventType
        (matchAndStoreEvent u.pd u.sessionId eventName eventType
          u.eventDate u.fid s) us

/-- The agreement hypothesis of the consensus claim, stated along the
trace: when an upload arrives and the store holds a row for the key, the
upload's observation agrees with that row in the code's sense
(`damage_matches or ranking_matches`). -/
def AgreesTrace (eventName eventType playerName : String) (day : Int) :
    List OCREventData → List Upload → Prop
  | _, [] => True
  | s, u :: us =>
      (∀ e, s.find? (matchesEventKey eventName playerName day) = some e →
        (damageMatches e u.pd.damage_points ||
          rankingMatches e u.pd.ranking) = true) ∧
      AgreesTrace eventName eventType playerName day
        (matchAndStoreEvent u.pd u.sessionId eventName eventType
          u.eventDate u.fid s) us

/-- Concrete stored row whose ranking 5 was directly read
(`rank_inferred = false`). -/
def evDirectRank : OCREventData :=
  { event_name := "E", event_type := "T", event_date := 7,
    player_name := "[AB]p", player_fid := none, ranking := some 5,
    rank_inferred := false, damage_points := some 100000,
    ocr_confidence := 1/2, image_source := "a.png",
    processing_session := "s1", verification_count := 1,
    verified_sessions := "s1", data_confidence := 1 }

/-- Concrete incoming record whose better ranking 3 was itself inferred
(`rank_inferred = true`). -/
def pdInferredRank : PlayerData :=
  { player_name := "[AB]p", raw_name := "[AB]p", ranking := some 3,
    damage_points := some 100000, confidence := 1/2,
    image_source := "b.png", bbox_y := 0, is_sticky_card := false,
    rank_inferred := true }

/-- Concrete consensus record: ranking 2, no damage value, so successive
uploads agree through rank equality. -/
def pdC1 : PlayerData :=
  { player_name := "[AB]p", raw_name := "[AB]p", ranking := some 2,
    damage_points := none, confidence := 1/2, image_source := "c1.png",
    bbox_y := 0, is_sticky_card := false }

/-- Second independent observation of the same result. -/
def pdC2 : PlayerData := { pdC1 with image_source := "c2.png" }

/-- Third independent observation of the same result. -/
def pdC3 : PlayerData := { pdC1 with image_source := "c3.png" }

/-- First upload: session `s1`, datetime 7.0. -/
def upA : Upload :=
  { sessionId := "s1", pd := pdC1, eventDate := 7, fid := none }

/-- Second upload: session `s2`, datetime 7.25 (same calendar day). -/
def upB : Upload :=
  { sessionId := "s2", pd := pdC2, eventDate := 29/4, fid := none }

/-- Third upload: session `s3`, datetime 7.5 (same calendar day). -/
def upC : Upload :=
  { sessionId := "s3", pd := pdC3, eventDate := 15/2, fid := none }

end KingshotOCR

namespace KingshotOCR

/-- Evaluation helper: the fuzz ratio in terms of a precomputed LCS length
and total length. -/
theorem fuzzSimilarity_eval (s t : String) (k n : Nat)
    (hk : lcs s.toList t.toList = k) (hn : s.length + t.length = n)
    (h0 : n ≠ 0) : fuzzSimilarity s t = (200 * k : ℚ) / n := by
  unfold fuzzSimilarity
  rw [hn, if_neg h0, hk]

/-- C4, counterexample.  `recD` and `recE` carry adjacent but unequal ranks
(3 and 4), identical scores, and name similarity exactly 70: the code's
`is_fuzzy_duplicate` classifies them as the same player through its third
branch (`rank_match` is "within 1"), while the claim's predicate — whose
clause (c) requires the ranks to be EQUAL — does not, so the claimed
"if and only if" fails at this input. -/
theorem fuzzy_duplicate_claim_false_at_adjacent_ranks :
    is_fuzzy_duplicate recD recE = true ∧
      claimFuzzyDuplicate recD recE = false := by
  have h : fuzzSimilarity (pyLower "aaaaaaabbb") (pyLower "aaaaaaaccc")
      = (200 * 7 : ℚ) / 20 :=
    fuzzSimilarity_eval _ _ 7 20 (by decide) (by decide) (by decide)
  constructor
  · norm_num [is_fuzzy_duplicate, h, rankWithinOne, scoreWithinOnePercent,
      truthy, recD, recE]
  · norm_num [claimFuzzyDuplicate, h, rankWithinOne, scoreWithinOnePercent,
      ranksEqual, truthy, recD, recE]

/-- C4, amended.  The fuzzy-collision predicate classifies two records as
the same player if and only if (a) name similarity ≥ 95, or (b) name
similarity ≥ 85 and (ranks within 1 of each other or scores within 1% of
the larger), or (c) ranks within 1 of each other (amended from "ranks
equal"), scores within 1%, and name similarity ≥ 70 — and under no other
condition. -/
theorem is_fuzzy_duplicate_iff_amended (d1 d2 : PlayerData) :
    is_fuzzy_duplicate d1 d2 = claimFuzzyDuplicateAmended d1 d2 := by
  simp only [is_fuzzy_duplicate, claimFuzzyDuplicateAmended]
  split_ifs with h1 h2 h3 <;> simp_all

/-- All the pairwise name similarities among `recA`, `recB`, `recC` equal
200·8/18 ≈ 88.9: the names share an 8-character prefix and have length 9. -/
theorem recABC_sim (s t : String)
    (h : (s = "aaaaaaaab" ∨ s = "aaaaaaaac" ∨ s = "aaaaaaaad") ∧
         (t = "aaaaaaaab" ∨ t = "aaaaaaaac" ∨ t = "aaaaaaaad") ∧ s ≠ t) :
    fuzzSimilarity (pyLower s) (pyLower t) = (200 * 8 : ℚ) / 18 := by
  obtain ⟨hs, ht, hne⟩ := h
  rcases hs with rfl | rfl | rfl <;> rcases ht with rfl | rfl | rfl <;>
    first
      | exact absurd rfl hne
      | exact fuzzSimilarity_eval _ _ 8 18 (by decide) (by decide) (by decide)

/-- `recB` is not a fuzzy duplicate of `recA`: similarity below 95, ranks
3 and 5 more than 1 apart, scores 10000 and 20000 more than 1% apart. -/
theorem recB_recA_not_fuzzy : is_fuzzy_duplicate recB recA = false := by
  have h := recABC_sim "aaaaaaaac" "aaaaaaaab" (by simp)
  norm_num [is_fuzzy_duplicate, h, rankWithinOne, scoreWithinOnePercent,
    truthy, recA, recB]

/-- `recC` (rank 4) is a fuzzy duplicate of `recA` (rank 3). -/
theorem recC_recA_fuzzy : is_fuzzy_duplicate recC recA = true := by
  have h := recABC_sim "aaaaaaaad" "aaaaaaaab" (by simp)
  norm_num [is_fuzzy_duplicate, h, rankWithinOne, scoreWithinOnePercent,
    truthy, recA, recC]

/-- `recC` (rank 4) is a fuzzy duplicate of `recB` (rank 5). -/
theorem recC_recB_fuzzy : is_fuzzy_duplicate recC recB = true := by
  have h := recABC_sim "aaaaaaaad" "aaaaaaaac" (by simp)
  norm_num [is_fuzzy_duplicate, h, rankWithinOne, scoreWithinOnePercent,
    truthy, recB, recC]

/-- `recA` is a fuzzy duplicate of `recC` (the symmetric direction). -/
theorem recA_recC_fuzzy : is_fuzzy_duplicate recA recC = true := by
  have h := recABC_sim "aaaaaaaab" "aaaaaaaad" (by simp)
  norm_num [is_fuzzy_duplicate, h, rankWithinOne, scoreWithinOnePercent,
    truthy, recA, recC]

/-- `recB` is a fuzzy duplicate of `recC` (the symmetric direction). -/
theorem recB_recC_fuzzy : is_fuzzy_duplicate recB recC = true := by
  have h := recABC_sim "aaaaaaaac" "aaaaaaaad" (by simp)
  norm_num [is_fuzzy_duplicate, h, rankWithinOne, scoreWithinOnePercent,
    truthy, recB, recC]

/-- Evaluation of the dedup pass on `[recA, recB, recC]`: `recB` does not
collide with `recA`; `recC` collides with `recA` first and replaces it
(higher confidence), never being compared against `recB`. -/
theorem dedup_ABC : resolveDuplicates [recA, recB, recC] = [recB, recC] := by
  have e1 : (recA.player_name == recB.player_name) = false := by decide
  have e2 : (recA.player_name == recC.player_name) = false := by decide
  have e3 : (recB.player_name == recC.player_name) = false := by decide
  have hsA : recA.is_sticky_card = false := by decide
  have hsC : recC.is_sticky_card = false := by decide
  have hcCA : recC.confidence > recA.confidence := by norm_num [recA, recC]
  have f1 : (recA.player_name != recA.player_name) = false := by decide
  have f2 : (recB.player_name != recA.player_name) = true := by decide
  have a1 : dedupStep [] recA = [(recA.player_name, recA)] := by
    simp [dedupStep]
  have a2 : dedupStep [(recA.player_name, recA)] recB
      = [(recA.player_name, recA), (recB.player_name, recB)] := by
    simp [dedupStep, List.find?, e1, recB_recA_not_fuzzy]
  have a3 : dedupStep [(recA.player_name, recA), (recB.player_name, recB)]
      recC = [(recB.player_name, recB), (recC.player_name, recC)] := by
    simp [dedupStep, List.find?, e2, e3, recC_recA_fuzzy, hsA, hsC, hcCA,
      f1, f2, List.filter]
  simp [resolveDuplicates, a1, a2, a3]

/-- Evaluation of the dedup pass on its own previous output
`[recB, recC]`: the two surviving records are fuzzy duplicates, so the
second pass merges them, keeping the higher-confidence `recC`. -/
theorem dedup_BC : resolveDuplicates [recB, recC] = [recC] := by
  have e1 : (recB.player_name == recC.player_name) = false := by decide
  have hsB : recB.is_sticky_card = false := by decide
  have hsC : recC.is_sticky_card = false := by decide
  have hcCB : recC.confidence > recB.confidence := by norm_num [recB, recC]
  have f1 : (recB.player_name != recB.player_name) = false := by decide
  have a1 : dedupStep [] recB = [(recB.player_name, recB)] := by
    simp [dedupStep]
  have a2 : dedupStep [(recB.player_name, recB)] recC
      = [(recC.player_name, recC)] := by
    simp [dedupStep, List.find?, e1, recC_recB_fuzzy, hsB, hsC, hcCB, f1,
      List.filter]
  simp [resolveDuplicates, a1, a2]

/-- Evaluation of the dedup pass on the rotated input `[recC, recA, recB]`:
`recC` is seen first, and both `recA` and `recB` are then discarded as
lower-confidence fuzzy duplicates of it. -/
theorem dedup_CAB : resolveDuplicates [recC, recA, recB] = [recC] := by
  have e1 : (recC.player_name == recA.player_name) = false := by decide
  have e2 : (recC.player_name == recB.player_name) = false := by decide
  have hsA : recA.is_sticky_card = false := by decide
  have hsB : recB.is_sticky_card = false := by decide
  have hsC : recC.is_sticky_card = false := by decide
  have hcAC : ¬ (recA.confidence > recC.confidence) := by
    norm_num [recA, recC]
  have hcBC : ¬ (recB.confidence > recC.confidence) := by
    norm_num [recB, recC]
  have a1 : dedupStep [] recC = [(recC.player_name, recC)] := by
    simp [dedupStep]
  have a2 : dedupStep [(recC.player_name, recC)] recA
      = [(recC.player_name, recC)] := by
    simp [dedupStep, List.find?, e1, recA_recC_fuzzy, hsA, hsC, hcAC]
  have a3 : dedupStep [(recC.player_name, recC)] recB
      = [(recC.player_name, recC)] := by
    simp [dedupStep, List.find?, e2, recB_recC_fuzzy, hsB, hsC, hcBC]
  simp [resolveDuplicates, a1, a2, a3]

/-- C5, counterexample.  The dedup pass is not idempotent: on
`[recA, recB, recC]` it outputs `[recB, recC]`, which still contains a
fuzzy-duplicate pair (`recC` replaced `recA` after being compared only
against `recA`), and a second pass merges it down to `[recC]`. -/
theorem dedup_not_idempotent :
    resolveDuplicates (resolveDuplicates [recA, recB, recC]) ≠
      resolveDuplicates [recA, recB, recC] := by
  rw [dedup_ABC, dedup_BC]
  intro h
  exact absurd (congrArg List.length h) (by simp)

/-- Reassigning a key's value never changes the key list. -/
theorem setKey_keys (acc : List (String × PlayerData)) (n : String)
    (d : PlayerData) : (setKey acc n d).map Prod.fst = acc.map Prod.fst := by
  unfold setKey
  rw [List.map_map]
  refine List.map_congr_left ?_
  intro p _
  by_cases h : p.1 = n <;> simp [h]

/-- Every dictionary entry built by the dedup loop keys a record by that
record's `player_name`, and the keys stay pairwise distinct. -/
theorem dedupStep_preserves_good (acc : List (String × PlayerData))
    (d : PlayerData)
    (hnd : (acc.map Prod.fst).Nodup)
    (hpair : ∀ p ∈ acc, p.1 = p.2.player_name) :
    ((dedupStep acc d).map Prod.fst).Nodup ∧
      ∀ p ∈ dedupStep acc d, p.1 = p.2.player_name := by
  have hset : ((setKey acc d.player_name d).map Prod.fst).Nodup ∧
      ∀ p ∈ setKey acc d.player_name d, p.1 = p.2.player_name := by
    constructor
    · rw [setKey_keys]; exact hnd
    · intro p hp
      unfold setKey at hp
      obtain ⟨q, hq, he⟩ := List.mem_map.mp hp
      by_cases hqn : q.1 = d.player_name
      · rw [if_pos hqn] at he
        rw [← he]
        exact hqn
      · rw [if_neg hqn] at he
        rw [← he]
        exact hpair q hq
  cases hfind : acc.find? (fun p => p.1 == d.player_name) with
  | some existing =>
      simp only [dedupStep, hfind]
      split_ifs <;> first | exact ⟨hnd, hpair⟩ | exact hset
  | none =>
      have hfresh : d.player_name ∉ acc.map Prod.fst := by
        intro hmem
        obtain ⟨p, hp, he⟩ := List.mem_map.mp hmem
        have hnp := List.find?_eq_none.mp hfind p hp
        simp [he] at hnp
      cases hfuzzy : acc.find? (fun p => is_fuzzy_duplicate d p.2) with
      | some existingEntry =>
          have hrep :
              (((acc.filter (fun p => p.1 != existingEntry.1)) ++
                  [(d.player_name, d)]).map Prod.fst).Nodup ∧
                ∀ p ∈ (acc.filter (fun p => p.1 != existingEntry.1)) ++
                    [(d.player_name, d)], p.1 = p.2.player_name := by
            constructor
            · rw [List.map_append]
              apply List.Nodup.append
              · exact List.Nodup.sublist
                  (List.Sublist.map Prod.fst (List.filter_sublist acc)) hnd
              · simp
              · intro x hx hy
                simp only [List.map_cons, List.map_nil,
                  List.mem_singleton] at hy
                subst hy
                obtain ⟨p, hp, he⟩ := List.mem_map.mp hx
                exact hfresh (List.mem_map.mpr
                  ⟨p, List.mem_of_mem_filter hp, he⟩)
            · intro p hp
              rcases List.mem_append.mp hp with h1 | h1
              · exact hpair p (List.mem_of_mem_filter h1)
              · simp only [List.mem_singleton] at h1
                subst h1
                rfl
          simp only [dedupStep, hfind, hfuzzy]
          split_ifs <;> first | exact ⟨hnd, hpair⟩ | exact hrep
      | none =>
          simp only [dedupStep, hfind, hfuzzy]
          constructor
          · rw [List.map_append]
            apply List.Nodup.append hnd (by simp)
            intro x hx hy
            simp only [List.map_cons, List.map_nil,
              List.mem_singleton] at hy
            subst hy
            exact hfresh hx
          · intro p hp
            rcases List.mem_append.mp hp with h1 | h1
            · exact hpair p h1
            · simp only [List.mem_singleton] at h1
              subst h1
              rfl

/-- The invariant of `dedupStep_preserves_good`, carried over the fold. -/
theorem dedup_fold_good (l : List PlayerData) :
    ∀ acc : List (String × PlayerData),
      (acc.map Prod.fst).Nodup → (∀ p ∈ acc, p.1 = p.2.player_name) →
      ((l.foldl dedupStep acc).map Prod.fst).Nodup ∧
        ∀ p ∈ l.foldl dedupStep acc, p.1 = p.2.player_name := by
  induction l with
  | nil => intro acc h1 h2; exact ⟨h1, h2⟩
  | cons d rest ih =>
      intro acc h1 h2
      rw [List.foldl_cons]
      obtain ⟨g1, g2⟩ := dedupStep_preserves_good acc d h1 h2
      exact ih (dedupStep acc d) g1 g2

/-- C5, amended.  The dedup output never contains two records with the same
exact name (its names are pairwise distinct), so a second pass performs no
exact-name merges; the original idempotence claim fails because the output
can still contain FUZZY duplicates, which a second pass merges (see the
counterexample). -/
theorem dedup_output_names_nodup (l : List PlayerData) :
    ((resolveDuplicates l).map PlayerData.player_name).Nodup := by
  obtain ⟨h1, h2⟩ := dedup_fold_good l [] (by simp) (by simp)
  unfold resolveDuplicates
  rw [List.map_map]
  have heq : (l.foldl dedupStep []).map (PlayerData.player_name ∘ Prod.snd)
      = (l.foldl dedupStep []).map Prod.fst := by
    refine List.map_congr_left ?_
    intro p hp
    exact (h2 p hp).symm
  rw [heq]
  exact h1

/-- C6, counterexample.  `[recC, recA, recB]` is a permutation of
`[recA, recB, recC]`, yet the dedup pass keeps two records on one ordering
and a single record on the other: the surviving set itself depends on the
input order, because a record can replace the first fuzzy match it is
compared against and then never be compared against the rest. -/
theorem dedup_order_dependent :
    [recA, recB, recC].Perm [recC, recA, recB] ∧
      resolveDuplicates [recA, recB, recC] = [recB, recC] ∧
      resolveDuplicates [recC, recA, recB] = [recC] ∧
      recB ∈ resolveDuplicates [recA, recB, recC] ∧
      recB ∉ resolveDuplicates [recC, recA, recB] := by
  refine ⟨?_, dedup_ABC, dedup_CAB, ?_, ?_⟩
  · have h : ([recA, recB] ++ [recC]).Perm ([recC] ++ [recA, recB]) :=
      List.perm_append_comm
    simpa using h
  · rw [dedup_ABC]; simp
  · rw [dedup_CAB]
    intro h
    simp only [List.mem_singleton] at h
    exact absurd (congrArg PlayerData.player_name h) (by decide)

/-- A record that collides with nothing in the dictionary is appended. -/
theorem dedupStep_no_collision (acc : List (String × PlayerData))
    (d : PlayerData)
    (h1 : ∀ p ∈ acc, p.1 ≠ d.player_name)
    (h2 : ∀ p ∈ acc, is_fuzzy_duplicate d p.2 = false) :
    dedupStep acc d = acc ++ [(d.player_name, d)] := by
  unfold dedupStep
  have hf1 : acc.find? (fun p => p.1 == d.player_name) = none := by
    rw [List.find?_eq_none]
    intro p hp
    simpa using h1 p hp
  have hf2 : acc.find? (fun p => is_fuzzy_duplicate d p.2) = none := by
    rw [List.find?_eq_none]
    intro p hp
    simp [h2 p hp]
  simp only [hf1, hf2]

/-- The dedup fold over a pairwise collision-free suffix appends every
record to the dictionary unchanged. -/
theorem dedup_fold_no_collision :
    ∀ (l : List PlayerData) (acc : List (String × PlayerData)),
      (∀ p ∈ acc, ∀ d ∈ l,
        p.1 ≠ d.player_name ∧ is_fuzzy_duplicate d p.2 = false) →
      l.Pairwise (fun a b =>
        a.player_name ≠ b.player_name ∧ is_fuzzy_duplicate b a = false) →
      l.foldl dedupStep acc = acc ++ l.map (fun d => (d.player_name, d))
  | [], acc, _, _ => by simp
  | d :: rest, acc, hacc, hpw => by
    rw [List.foldl_cons]
    rw [dedupStep_no_collision acc d
      (fun p hp => (hacc p hp d (by simp)).1)
      (fun p hp => (hacc p hp d (by simp)).2)]
    rw [List.pairwise_cons] at hpw
    rw [dedup_fold_no_collision rest (acc ++ [(d.player_name, d)])
      (by
        intro p hp b hb
        rcases List.mem_append.mp hp with hp1 | hp2
        · exact hacc p hp1 b (by simp [hb])
        · simp only [List.mem_singleton] at hp2
          subst hp2
          exact ⟨(hpw.1 b hb).1, (hpw.1 b hb).2⟩)
      hpw.2]
    simp

/-- Mapping each record to its dictionary entry and back is the identity. -/
theorem map_snd_entry (l : List PlayerData) :
    (l.map (fun d => (d.player_name, d))).map Prod.snd = l := by
  induction l with
  | nil => rfl
  | cons a t ih => simp only [List.map_cons, ih]

/-- C6, amended.  Duplicate resolution is order-dependent in general: a
permutation of the input can change even the set of surviving records (see
the counterexample).  What does hold is that on an input in which no two
records are exact-name or fuzzy duplicates of each other the pass is the
identity, so on collision-free inputs the result is reproducible from the
unordered input set. -/
theorem dedup_collision_free_identity (l : List PlayerData)
    (h : l.Pairwise (fun a b =>
      a.player_name ≠ b.player_name ∧ is_fuzzy_duplicate b a = false)) :
    resolveDuplicates l = l := by
  unfold resolveDuplicates
  rw [dedup_fold_no_collision l [] (by simp) h]
  rw [List.nil_append]
  exact map_snd_entry l

/-- Witness for the amended C6 theorem at the concrete collision-free input
`[recA, recF]`. -/
theorem dedup_collision_free_identity_witness :
    resolveDuplicates [recA, recF] = [recA, recF] := by
  have hsim : fuzzSimilarity (pyLower "zzzzz") (pyLower "aaaaaaaab")
      = (200 * 0 : ℚ) / 14 :=
    fuzzSimilarity_eval _ _ 0 14 (by decide) (by decide) (by decide)
  have hfz : is_fuzzy_duplicate recF recA = false := by
    norm_num [is_fuzzy_duplicate, hsim, rankWithinOne, scoreWithinOnePercent,
      truthy, recA, recF]
  exact dedup_collision_free_identity [recA, recF]
    (by
      rw [List.pairwise_cons]
      refine ⟨?_, by simp⟩
      intro b hb
      simp only [List.mem_singleton] at hb
      subst hb
      exact ⟨by decide, hfz⟩)

/-- C9.  For an exact-name duplicate pair with mixed stickiness the dedup
survivor is the non-sticky record, whichever of the two arrives first and
whatever the two confidence values are: the confidence comparison is only
reached when the two stickiness flags are equal. -/
theorem sticky_card_suppressed (a b : PlayerData)
    (hname : a.player_name = b.player_name)
    (ha : a.is_sticky_card = false) (hb : b.is_sticky_card = true) :
    resolveDuplicates [a, b] = [a] ∧ resolveDuplicates [b, a] = [a] := by
  constructor
  · have s1 : dedupStep [] a = [(a.player_name, a)] := by simp [dedupStep]
    have s2 : dedupStep [(a.player_name, a)] b = [(a.player_name, a)] := by
      simp [dedupStep, List.find?, hname, ha, hb]
    simp [resolveDuplicates, s1, s2]
  · have s1 : dedupStep [] b = [(b.player_name, b)] := by simp [dedupStep]
    have s2 : dedupStep [(b.player_name, b)] a = [(b.player_name, a)] := by
      simp [dedupStep, List.find?, hname, ha, hb, setKey]
    simp [resolveDuplicates, s1, s2]

/-- Witness for `sticky_card_suppressed` at a concrete pair: the sticky
copy of `recA` carries the higher confidence yet loses in both orders. -/
theorem sticky_card_suppressed_witness :
    resolveDuplicates [recA, recASticky] = [recA] ∧
      resolveDuplicates [recASticky, recA] = [recA] :=
  sticky_card_suppressed recA recASticky rfl (by decide) (by decide)

/-- The ranking the loop sees at position `n + 1` of a cons result is the
ranking it sees at position `n` of the tail result seeded with the head's
ranking. -/
theorem prevRankAt_cons (prevRank : Option Int) (p' : PlayerData)
    (res : List PlayerData) (n : Nat) :
    prevRankAt prevRank (p' :: res) (n + 1) = prevRankAt p'.ranking res n := by
  cases n with
  | zero => simp [prevRankAt]
  | succ m => simp [prevRankAt]

/-- Pointwise description of the inference loop: position `i` of the
result is the step function applied to the record, the processed
predecessor's ranking, and the untouched successor. -/
theorem inferLoop_get? (l : List PlayerData) :
    ∀ (prevRank : Option Int) (i : Nat) (p : PlayerData),
      l.get? i = some p →
      (inferLoop prevRank l).get? i =
        some (inferStep (prevRankAt prevRank (inferLoop prevRank l) i) p
          (l.get? (i + 1))) := by
  induction l with
  | nil => intro pr i p hp; simp at hp
  | cons hd tl ih =>
      intro pr i p hp
      have hcons : inferLoop pr (hd :: tl)
          = inferStep pr hd tl.head? ::
              inferLoop (inferStep pr hd tl.head?).ranking tl := by
        simp [inferLoop]
      cases i with
      | zero =>
          simp only [List.get?_cons_zero, Option.some.injEq] at hp
          subst hp
          rw [hcons, List.get?_cons_zero]
          have h1 : (hd :: tl).get? (0 + 1) = tl.head? := by
            rw [List.get?_cons_succ, List.get?_zero]
          rw [h1]
          rfl
      | succ n =>
          have hp' : tl.get? n = some p := by
            rw [← List.get?_cons_succ (a := hd)]
            exact hp
          rw [hcons, List.get?_cons_succ, prevRankAt_cons,
            List.get?_cons_succ, ih _ n p hp']

/-- A record that already carries a ranking is left untouched. -/
theorem inferStep_of_ranked (prevRank : Option Int) (p : PlayerData)
    (next : Option PlayerData) (r : Int) (h : p.ranking = some r) :
    inferStep prevRank p next = p := by
  simp [inferStep, h]

/-- An unranked record below a ranked predecessor gets that ranking plus
one. -/
theorem inferStep_of_prev (R : Int) (p : PlayerData)
    (next : Option PlayerData) (h : p.ranking = none) :
    inferStep (some R) p next
      = { p with ranking := some (R + 1), rank_inferred := true } := by
  simp [inferStep, h]

/-- An unranked record with no usable predecessor takes the successor's
ranking minus one when that stays at least 1. -/
theorem inferStep_of_next (p : PlayerData) (next : Option PlayerData)
    (R : Int) (h : p.ranking = none)
    (hn : next.bind (fun q => q.ranking) = some R) (hge : 1 ≤ R - 1) :
    inferStep none p next
      = { p with ranking := some (R - 1), rank_inferred := true } := by
  simp [inferStep, h, hn, hge]

/-- An unranked record with no usable neighbour stays unranked, with
`rank_inferred` set to `false`. -/
theorem inferStep_stays_unranked (p : PlayerData) (next : Option PlayerData)
    (h : p.ranking = none)
    (hn : ∀ R, next.bind (fun q => q.ranking) = some R → R - 1 < 1) :
    inferStep none p next = { p with rank_inferred := false } := by
  cases hnext : next.bind (fun q => q.ranking) with
  | none => simp [inferStep, h, hnext]
  | some R =>
      have h2 : ¬ 1 ≤ R - 1 := not_le.mpr (hn R hnext)
      simp [inferStep, h, hnext, h2]

/-- C7.  On a record list in sorted `(source_image, vertical position)`
order, the inference loop fills every unranked record as specified: a
predecessor ranking `R` (as visible after the predecessor was processed)
yields `R + 1`; failing that, a successor with original ranking `R` yields
`R - 1` provided `R - 1 ≥ 1`; otherwise the record stays unranked; every
filled rank sets `rank_inferred = true`, and already-ranked records are
untouched.  In particular the input with rankings `[3, null, 5]` comes out
as `[3, 4, 5]` with only the middle record marked inferred. -/
theorem rank_inference_rule (l : List PlayerData) :
    (∀ i p r, l.get? i = some p → p.ranking = some r →
      (inferLoop none l).get? i = some p) ∧
    (∀ i p R, l.get? i = some p → p.ranking = none →
      prevRankAt none (inferLoop none l) i = some R →
      (inferLoop none l).get? i
        = some { p with ranking := some (R + 1), rank_inferred := true }) ∧
    (∀ i p R, l.get? i = some p → p.ranking = none →
      prevRankAt none (inferLoop none l) i = none →
      (l.get? (i + 1)).bind (fun q => q.ranking) = some R →
      1 ≤ R - 1 →
      (inferLoop none l).get? i
        = some { p with ranking := some (R - 1), rank_inferred := true }) ∧
    (∀ i p, l.get? i = some p → p.ranking = none →
      prevRankAt none (inferLoop none l) i = none →
      (∀ R, (l.get? (i + 1)).bind (fun q => q.ranking) = some R →
        R - 1 < 1) →
      (inferLoop none l).get? i = some { p with rank_inferred := false }) ∧
    ((infer_missing_ranks [exRank3, exRankNone, exRank5]).map
        (fun q => (q.ranking, q.rank_inferred))
      = [(some 3, false), (some 4, true), (some 5, false)]) := by
  refine ⟨?_, ?_, ?_, ?_, ?_⟩
  · intro i p r hp hr
    rw [inferLoop_get? l none i p hp, inferStep_of_ranked _ _ _ r hr]
  · intro i p R hp hr hprev
    rw [inferLoop_get? l none i p hp, hprev, inferStep_of_prev R p _ hr]
  · intro i p R hp hr hprev hn hge
    rw [inferLoop_get? l none i p hp, hprev,
      inferStep_of_next p _ R hr hn hge]
  · intro i p hp hr hprev hn
    rw [inferLoop_get? l none i p hp, hprev,
      inferStep_stays_unranked p _ hr hn]
  · decide

/-- Witness for `rank_inference_rule`: all four behavioural clauses applied
at concrete inputs, including the spec's `[3, null, 5]` example. -/
theorem rank_inference_rule_witness :
    ((inferLoop none [exRank3, exRankNone, exRank5]).get? 0
      = some exRank3) ∧
    ((inferLoop none [exRank3, exRankNone, exRank5]).get? 1
      = some { exRankNone with ranking := some (3 + 1), rank_inferred := true }) ∧
    ((inferLoop none [exRankNone, exRank5]).get? 0
      = some { exRankNone with ranking := some (5 - 1), rank_inferred := true }) ∧
    ((inferLoop none [exRankNone]).get? 0
      = some { exRankNone with rank_inferred := false }) := by
  refine ⟨?_, ?_, ?_, ?_⟩
  · exact (rank_inference_rule _).1 0 exRank3 3 rfl rfl
  · exact (rank_inference_rule _).2.1 1 exRankNone 3 rfl rfl (by decide)
  · exact (rank_inference_rule _).2.2.1 0 exRankNone 5 rfl rfl (by decide)
      (by decide) (by decide)
  · exact (rank_inference_rule _).2.2.2.1 0 exRankNone rfl rfl (by decide)
      (by intro R h; simp at h)

/-- C10.  Inferred rankings cascade: a ranking written at one position is
the predecessor ranking of the next iteration, so a run of `k` consecutive
unranked records directly below a record with ranking `R` receives
`R + 1, R + 2, ..., R + k`, each marked `rank_inferred = true` — not just
the first record of the run. -/
theorem rank_inference_cascade (l : List PlayerData) (i k : Nat)
    (p : PlayerData) (R : Int)
    (hp : l.get? i = some p) (hR : p.ranking = some R)
    (hrun : ∀ j < k, ∃ q, l.get? (i + 1 + j) = some q ∧ q.ranking = none) :
    ∀ j < k, ∃ q, (inferLoop none l).get? (i + 1 + j) = some q ∧
      q.ranking = some (R + 1 + (j : ℤ)) ∧ q.rank_inferred = true := by
  intro j
  induction j with
  | zero =>
      intro h0
      obtain ⟨q, hq, hqr⟩ := hrun 0 h0
      have hresi : (inferLoop none l).get? i = some p := by
        rw [inferLoop_get? l none i p hp, inferStep_of_ranked _ _ _ R hR]
      have hprev : prevRankAt none (inferLoop none l) (i + 1) = some R := by
        rw [List.get?_eq_getElem?] at hresi
        simp [prevRankAt, hresi, hR]
      refine ⟨{ q with ranking := some (R + 1), rank_inferred := true }, ?_, by simp, by simp⟩
      have hq' : l.get? (i + 1) = some q := by simpa using hq
      simp only [Nat.add_zero]
      rw [inferLoop_get? l none (i + 1) q hq', hprev,
        inferStep_of_prev R q _ hqr]
  | succ j ih =>
      intro hjk
      obtain ⟨q', hq', hr', _⟩ := ih (Nat.lt_of_succ_lt hjk)
      obtain ⟨q, hq, hqr⟩ := hrun (j + 1) hjk
      have hstep : i + 1 + (j + 1) = (i + 1 + j) + 1 := by omega
      have hprev : prevRankAt none (inferLoop none l) (i + 1 + (j + 1))
          = some (R + 1 + (j : ℤ)) := by
        rw [hstep]
        rw [List.get?_eq_getElem?] at hq'
        simp [prevRankAt, hq', hr']
      refine ⟨{ q with ranking := some (R + 1 + (j : ℤ) + 1), rank_inferred := true }, ?_, by push_cast; ring_nf, by simp⟩
      rw [inferLoop_get? l none (i + 1 + (j + 1)) q hq, hprev,
        inferStep_of_prev _ q _ hqr]

/-- The vertical extent the code actually uses for the sticky threshold:
the image of the two concrete detections reaches down to y = 200. -/
theorem maxBottomY_example : maxBottomY [detName, detOther] = 200 := by
  norm_num [maxBottomY, detName, detOther]

/-- C8, counterexample.  With a non-name detection reaching down to y = 200
and a single name detection with lower edge y = 100, the code's threshold
is 0.8 * 200 = 160, so the name record is NOT flagged sticky — yet its
lower edge lies in the bottom 20% of the extent of the NAME detections
(100 > 0.8 * 100), where the claim says it must be flagged. -/
theorem sticky_extent_claim_false :
    (extract_player_scores [detName, detOther] "img").map
        PlayerData.is_sticky_card = [false] ∧
      stickyPerClaim [detName, detOther] detName = true := by
  have h1 : startsBracket detName.text = true := by decide
  have h1b : startsBracket detOther.text = false := by decide
  have h2 : decide (detName.confidence > (0.6 : ℚ)) = true := by
    rw [decide_eq_true_iff]
    norm_num [detName]
  have h3 : is_valid_alliance_name_format (clean_player_name detName.text)
      = true := by decide
  have hflag :
      (mkPlayerEntry [detName, detOther] "img" detName).is_sticky_card
        = false := by
    simp only [mkPlayerEntry, maxBottomY_example]
    rw [decide_eq_false_iff_not]
    norm_num [detName]
  constructor
  · simp [extract_player_scores, List.filterMap, h1, h1b, h2, h3, hflag]
  · unfold stickyPerClaim
    have hnd : nameDetections [detName, detOther] = [detName] := by
      simp [nameDetections, List.filter, h1, h1b, h2, h3]
    rw [hnd, decide_eq_true_iff]
    norm_num [maxBottomY, detName]

/-- C8, amended.  The extractor flags a name record as a sticky card
exactly when the y-coordinate of the name detection's lower edge strictly
exceeds 0.8 times the maximum vertical extent computed across ALL
detections of the image (amended from "across the name Detections"). -/
theorem sticky_flag_rule (texts : List Detection) (img : String)
    (d : Detection) (hd : d ∈ texts)
    (h1 : startsBracket d.text = true)
    (h2 : d.confidence > 0.6)
    (h3 : is_valid_alliance_name_format (clean_player_name d.text) = true) :
    mkPlayerEntry texts img d ∈ extract_player_scores texts img ∧
      ((mkPlayerEntry texts img d).is_sticky_card = true ↔
        d.bbox2.2 > maxBottomY texts * 0.80) := by
  constructor
  · unfold extract_player_scores
    apply List.mem_filterMap.mpr
    refine ⟨d, hd, ?_⟩
    rw [h1, h3]
    simp [h2]
  · simp [mkPlayerEntry]

/-- Witness for `sticky_flag_rule` at the concrete two-detection image. -/
theorem sticky_flag_rule_witness :
    mkPlayerEntry [detName, detOther] "img" detName
        ∈ extract_player_scores [detName, detOther] "img" ∧
      ((mkPlayerEntry [detName, detOther] "img" detName).is_sticky_card
          = true ↔
        detName.bbox2.2 > maxBottomY [detName, detOther] * 0.80) :=
  sticky_flag_rule [detName, detOther] "img" detName (by simp) (by decide)
    (by norm_num [detName]) (by decide)

/-- Witness for `rank_inference_cascade`: below the ranked `exRank3`, the
run of two unranked records receives rankings 4 and then 5. -/
theorem rank_inference_cascade_witness :
    ∃ q, (inferLoop none [exRank3, exRankNone, exRankNone2]).get? (0 + 1 + 1)
        = some q ∧
      q.ranking = some (3 + 1 + ((1 : ℕ) : ℤ)) ∧ q.rank_inferred = true :=
  rank_inference_cascade [exRank3, exRankNone, exRankNone2] 0 2 exRank3 3
    rfl rfl
    (by
      intro j hj
      interval_cases j
      · exact ⟨exRankNone, rfl, rfl⟩
      · exact ⟨exRankNone2, rfl, rfl⟩)
    1 (by decide)

end KingshotOCR

namespace KingshotOCR

theorem applyVerification_preserved (e : OCREventData) (pd : PlayerData)
    (sid : String) :
    (applyVerification e pd sid).event_name = e.event_name ∧
      (applyVerification e pd sid).player_name = e.player_name ∧
      (applyVerification e pd sid).event_date = e.event_date ∧
      (applyVerification e pd sid).ranking = e.ranking ∧
      (applyVerification e pd sid).damage_points = e.damage_points ∧
      (applyVerification e pd sid).ocr_confidence = e.ocr_confidence := by
  simp only [applyVerification]
  split_ifs <;> exact ⟨rfl, rfl, rfl, rfl, rfl, rfl⟩

theorem applyDamage_preserved (e : OCREventData) (pd : PlayerData)
    (sid : String) :
    (applyDamage e pd sid).event_name = e.event_name ∧
      (applyDamage e pd sid).player_name = e.player_name ∧
      (applyDamage e pd sid).event_date = e.event_date ∧
      (applyDamage e pd sid).ranking = e.ranking ∧
      (applyDamage e pd sid).verified_sessions = e.verified_sessions ∧
      (applyDamage e pd sid).verification_count = e.verification_count ∧
      (applyDamage e pd sid).data_confidence = e.data_confidence ∧
      (applyDamage e pd sid).ocr_confidence = e.ocr_confidence := by
  simp only [applyDamage]
  split_ifs <;> exact ⟨rfl, rfl, rfl, rfl, rfl, rfl, rfl, rfl⟩

theorem applyRankFill_preserved (e : OCREventData) (pd : PlayerData) :
    (applyRankFill e pd).event_name = e.event_name ∧
      (applyRankFill e pd).player_name = e.player_name ∧
      (applyRankFill e pd).event_date = e.event_date ∧
      (applyRankFill e pd).verified_sessions = e.verified_sessions ∧
      (applyRankFill e pd).verification_count = e.verification_count ∧
      (applyRankFill e pd).data_confidence = e.data_confidence ∧
      (applyRankFill e pd).ocr_confidence = e.ocr_confidence := by
  simp only [applyRankFill]
  split_ifs <;> exact ⟨rfl, rfl, rfl, rfl, rfl, rfl, rfl⟩

theorem applyRankLower_preserved (e : OCREventData) (pd : PlayerData) :
    (applyRankLower e pd).event_name = e.event_name ∧
      (applyRankLower e pd).player_name = e.player_name ∧
      (applyRankLower e pd).event_date = e.event_date ∧
      (applyRankLower e pd).verified_sessions = e.verified_sessions ∧
      (applyRankLower e pd).verification_count = e.verification_count ∧
      (applyRankLower e pd).data_confidence = e.data_confidence ∧
      (applyRankLower e pd).ocr_confidence = e.ocr_confidence := by
  simp only [applyRankLower]
  split_ifs <;> exact ⟨rfl, rfl, rfl, rfl, rfl, rfl, rfl⟩

theorem applyConfidence_preserved (e : OCREventData) (pd : PlayerData) :
    (applyConfidence e pd).event_name = e.event_name ∧
      (applyConfidence e pd).player_name = e.player_name ∧
      (applyConfidence e pd).event_date = e.event_date ∧
      (applyConfidence e pd).ranking = e.ranking ∧
      (applyConfidence e pd).verified_sessions = e.verified_sessions ∧
      (applyConfidence e pd).verification_count = e.verification_count ∧
      (applyConfidence e pd).data_confidence = e.data_confidence := by
  simp only [applyConfidence]
  split_ifs <;> exact ⟨rfl, rfl, rfl, rfl, rfl, rfl, rfl⟩

theorem updateExistingEvent_key_fields (e : OCREventData) (pd : PlayerData)
    (sid : String) :
    (updateExistingEvent e pd sid).event_name = e.event_name ∧
      (updateExistingEvent e pd sid).player_name = e.player_name ∧
      (updateExistingEvent e pd sid).event_date = e.event_date := by
  unfold updateExistingEvent
  refine ⟨?_, ?_, ?_⟩ <;>
    simp [applyVerification_preserved, applyDamage_preserved,
      applyRankFill_preserved, applyRankLower_preserved,
      applyConfidence_preserved]

theorem matchesEventKey_update (en pn : String) (day : Int)
    (e : OCREventData) (pd : PlayerData) (sid : String) :
    matchesEventKey en pn day (updateExistingEvent e pd sid)
      = matchesEventKey en pn day e := by
  obtain ⟨h1, h2, h3⟩ := updateExistingEvent_key_fields e pd sid
  unfold matchesEventKey
  rw [h1, h2, h3]

theorem matchAndStoreEvent_no_match (pd : PlayerData) (sid en et : String)
    (d : ℚ) (fid : Option String) (s : List OCREventData)
    (h : ∀ e ∈ s, matchesEventKey en pd.player_name ⌊d⌋ e = false) :
    matchAndStoreEvent pd sid en et d fid s
      = s ++ [newEventRecord pd sid en et d fid] := by
  induction s with
  | nil => rfl
  | cons e rest ih =>
      simp only [matchAndStoreEvent]
      rw [h e (by simp)]
      simp only [Bool.false_eq_true, if_false, List.cons_append,
        List.cons.injEq, true_and]
      exact ih (fun x hx => h x (by simp [hx]))

theorem matchAndStoreEvent_at_end (pd : PlayerData) (sid en et : String)
    (d : ℚ) (fid : Option String) (s0 : List OCREventData) (r : OCREventData)
    (h0 : ∀ e ∈ s0, matchesEventKey en pd.player_name ⌊d⌋ e = false)
    (hr : matchesEventKey en pd.player_name ⌊d⌋ r = true) :
    matchAndStoreEvent pd sid en et d fid (s0 ++ [r])
      = s0 ++ [updateExistingEvent r pd sid] := by
  induction s0 with
  | nil =>
      simp only [List.nil_append, matchAndStoreEvent]
      rw [hr]
      simp
  | cons e rest ih =>
      simp only [List.cons_append, matchAndStoreEvent]
      rw [h0 e (by simp)]
      simp only [Bool.false_eq_true, if_false, List.cons.injEq, true_and]
      exact ih (fun x hx => h0 x (by simp [hx]))

theorem newEventRecord_key (pd : PlayerData) (sid en et : String) (d : ℚ)
    (fid : Option String) :
    matchesEventKey en pd.player_name ⌊d⌋
      (newEventRecord pd sid en et d fid) = true := by
  unfold matchesEventKey newEventRecord
  simp [Int.floor_le, Int.lt_floor_add_one]

end KingshotOCR

namespace KingshotOCR

/-- C1.  Two uploads with the same event name, the same player name, and
event dates on the same calendar day never produce two rows: starting from
a store with no row for the key, the first upload appends exactly one row
and the second finds that row and mutates it in place, leaving the length
unchanged and exactly one key-matching row. -/
theorem consensus_upsert_no_duplicate_row
    (s0 : List OCREventData) (pd1 pd2 : PlayerData)
    (sid1 sid2 en et : String) (d1 d2 : ℚ) (fid1 fid2 : Option String)
    (hpn : pd1.player_name = pd2.player_name)
    (hday : ⌊d1⌋ = ⌊d2⌋)
    (h0 : ∀ e ∈ s0, matchesEventKey en pd1.player_name ⌊d1⌋ e = false) :
    matchAndStoreEvent pd2 sid2 en et d2 fid2
        (matchAndStoreEvent pd1 sid1 en et d1 fid1 s0)
      = s0 ++ [updateExistingEvent
          (newEventRecord pd1 sid1 en et d1 fid1) pd2 sid2] ∧
    (matchAndStoreEvent pd2 sid2 en et d2 fid2
        (matchAndStoreEvent pd1 sid1 en et d1 fid1 s0)).length
      = (matchAndStoreEvent pd1 sid1 en et d1 fid1 s0).length ∧
    (matchAndStoreEvent pd2 sid2 en et d2 fid2
        (matchAndStoreEvent pd1 sid1 en et d1 fid1 s0)).countP
        (matchesEventKey en pd2.player_name ⌊d2⌋) = 1 := by
  have h0' : ∀ e ∈ s0, matchesEventKey en pd2.player_name ⌊d2⌋ e = false := by
    intro e he
    rw [← hpn, ← hday]
    exact h0 e he
  have hs1 : matchAndStoreEvent pd1 sid1 en et d1 fid1 s0
      = s0 ++ [newEventRecord pd1 sid1 en et d1 fid1] :=
    matchAndStoreEvent_no_match pd1 sid1 en et d1 fid1 s0 h0
  have hr1 : matchesEventKey en pd2.player_name ⌊d2⌋
      (newEventRecord pd1 sid1 en et d1 fid1) = true := by
    rw [← hpn, ← hday]
    exact newEventRecord_key pd1 sid1 en et d1 fid1
  have hs2 : matchAndStoreEvent pd2 sid2 en et d2 fid2
      (s0 ++ [newEventRecord pd1 sid1 en et d1 fid1])
      = s0 ++ [updateExistingEvent (newEventRecord pd1 sid1 en et d1 fid1)
          pd2 sid2] :=
    matchAndStoreEvent_at_end pd2 sid2 en et d2 fid2 s0 _ h0' hr1
  refine ⟨by rw [hs1, hs2], by rw [hs1, hs2]; simp, ?_⟩
  rw [hs1, hs2, List.countP_append]
  have hz : s0.countP (matchesEventKey en pd2.player_name ⌊d2⌋) = 0 := by
    rw [List.countP_eq_zero]
    intro e he
    simp [h0' e he]
  have hu : matchesEventKey en pd2.player_name ⌊d2⌋
      (updateExistingEvent (newEventRecord pd1 sid1 en et d1 fid1) pd2 sid2)
      = true := by
    rw [matchesEventKey_update]
    exact hr1
  rw [hz]
  simp [List.countP_cons, hu]

/-- Witness for `consensus_upsert_no_duplicate_row` at two concrete
uploads of `recA` on day 7 (datetimes 7.0 and 7.5). -/
theorem consensus_upsert_no_duplicate_row_witness :
    matchAndStoreEvent recA "s2" "E" "T" (15/2) none
        (matchAndStoreEvent recA "s1" "E" "T" 7 none [])
      = [] ++ [updateExistingEvent
          (newEventRecord recA "s1" "E" "T" 7 none) recA "s2"] ∧
    (matchAndStoreEvent recA "s2" "E" "T" (15/2) none
        (matchAndStoreEvent recA "s1" "E" "T" 7 none [])).length
      = (matchAndStoreEvent recA "s1" "E" "T" 7 none []).length ∧
    (matchAndStoreEvent recA "s2" "E" "T" (15/2) none
        (matchAndStoreEvent recA "s1" "E" "T" 7 none [])).countP
        (matchesEventKey "E" recA.player_name ⌊(15/2 : ℚ)⌋) = 1 :=
  consensus_upsert_no_duplicate_row [] recA recA "s1" "s2" "E" "T" 7 (15/2)
    none none rfl (by norm_num) (by simp)

end KingshotOCR

namespace KingshotOCR

/-- C3.  The value-improvement step adopts any strictly lower new ranking
without consulting either `rank_inferred` flag: the stored row's directly
read ranking 5 is overwritten with the incoming inferred ranking 3, both
when the mutation is applied directly and when it is reached through the
upsert's key lookup.  The claim says a directly-read stored rank is never
overwritten by an inferred one; the code does overwrite it here. -/
theorem direct_rank_overwritten_by_inferred :
    evDirectRank.rank_inferred = false ∧
      evDirectRank.ranking = some 5 ∧
      pdInferredRank.rank_inferred = true ∧
      (updateExistingEvent evDirectRank pdInferredRank "s2").ranking
        = some 3 ∧
      matchAndStoreEvent pdInferredRank "s2" "E" "T" 7 none [evDirectRank]
        = [updateExistingEvent evDirectRank pdInferredRank "s2"] := by
  have hmid : (applyRankLower (applyRankFill (applyDamage
      (applyVerification evDirectRank pdInferredRank "s2") pdInferredRank
      "s2") pdInferredRank) pdInferredRank).ranking = some 3 := by decide
  refine ⟨rfl, rfl, rfl, ?_, ?_⟩
  · unfold updateExistingEvent
    rw [(applyConfidence_preserved _ _).2.2.2.1]
    exact hmid
  · have hk : matchesEventKey "E" pdInferredRank.player_name ⌊(7 : ℚ)⌋
        evDirectRank = true := by
      unfold matchesEventKey
      norm_num [evDirectRank, pdInferredRank]
    simp only [matchAndStoreEvent]
    rw [hk]
    simp

end KingshotOCR

namespace KingshotOCR

theorem toList_mk (l : List Char) : (String.mk l).toList = l := rfl

theorem mk_toList (s : String) : String.mk s.toList = s := rfl

theorem splitCommaChars_no_comma (g : List Char) (hg : ',' ∉ g) :
    splitCommaChars g = [g] := by
  induction g with
  | nil => rfl
  | cons c cs ih =>
      have hc : ¬ (c = ',') := fun h => hg (h ▸ List.mem_cons_self c cs)
      have hcs : ',' ∉ cs := fun h => hg (List.mem_cons_of_mem c h)
      simp only [splitCommaChars, if_neg hc, ih hcs]

theorem splitCommaChars_append (g t : List Char) (hg : ',' ∉ g) :
    splitCommaChars (g ++ ',' :: t) = g :: splitCommaChars t := by
  induction g with
  | nil => simp [splitCommaChars]
  | cons c cs ih =>
      have hc : ¬ (c = ',') := fun h => hg (h ▸ List.mem_cons_self c cs)
      have hcs : ',' ∉ cs := fun h => hg (List.mem_cons_of_mem c h)
      simp only [List.cons_append, splitCommaChars, if_neg hc]
      rw [List.append_eq, ih hcs]

theorem splitCommaChars_join : ∀ (ids : List (List Char)), ids ≠ [] →
    (∀ g ∈ ids, ',' ∉ g) → splitCommaChars (joinCommaChars ids) = ids
  | [], hne, _ => absurd rfl hne
  | [g], _, h => by
      simp only [joinCommaChars]
      exact splitCommaChars_no_comma g (h g (by simp))
  | g :: g2 :: gs2, _, h => by
      have hj : joinCommaChars (g :: g2 :: gs2)
          = g ++ ',' :: joinCommaChars (g2 :: gs2) := rfl
      rw [hj, splitCommaChars_append g _ (h g (by simp)),
        splitCommaChars_join (g2 :: gs2) (by simp)
          (fun x hx => h x (by simp [hx]))]

theorem joinComma_ne_empty (ids : List String) (hne : ids ≠ [])
    (h : ∀ x ∈ ids, x ≠ "") : joinComma ids ≠ "" := by
  intro hcontra
  have hl : joinCommaChars (ids.map String.toList) = [] := by
    have := congrArg String.toList hcontra
    rwa [toList_mk] at this
  match ids, hne, h with
  | [x], _, h =>
      have : x.toList = [] := by simpa [joinCommaChars] using hl
      exact (h x (by simp)) (by
        have := congrArg String.mk this
        rwa [mk_toList] at this)
  | x :: y :: rest, _, _ =>
      have hj : joinCommaChars ((x :: y :: rest).map String.toList)
          = x.toList ++ ',' :: joinCommaChars ((y :: rest).map String.toList)
          := rfl
      rw [hj] at hl
      simp at hl

theorem loadSessions_joinComma (ids : List String) (hne : ids ≠ [])
    (h : ∀ x ∈ ids, x ≠ "" ∧ ',' ∉ x.toList) :
    loadSessions (joinComma ids) = ids := by
  unfold loadSessions
  rw [if_neg (joinComma_ne_empty ids hne (fun x hx => (h x hx).1))]
  unfold splitComma joinComma
  rw [toList_mk]
  rw [splitCommaChars_join (ids.map String.toList)
    (by simpa using hne)
    (by
      intro g hg
      obtain ⟨x, hx, rfl⟩ := List.mem_map.mp hg
      exact (h x hx).2)]
  rw [List.map_map]
  have heq : ids.map ((fun cs => String.mk cs) ∘ String.toList)
      = ids.map id := List.map_congr_left (fun x _ => mk_toList x)
  rw [heq, List.map_id]

theorem loadSessions_single (sid : String) (h1 : sid ≠ "")
    (h2 : ',' ∉ sid.toList) : loadSessions sid = [sid] := by
  unfold loadSessions
  rw [if_neg h1]
  unfold splitComma
  rw [splitCommaChars_no_comma sid.toList h2]
  simp [mk_toList]

end KingshotOCR

namespace KingshotOCR

/-- Effect of the verification step inside `updateExistingEvent` when the
session is new and the observation agrees; the four value-improvement
steps leave the three verification fields unchanged. -/
theorem updateExistingEvent_verified (e : OCREventData) (pd : PlayerData)
    (sid : String)
    (hnew : sid ∉ loadSessions e.verified_sessions)
    (hagree : (damageMatches e pd.damage_points ||
      rankingMatches e pd.ranking) = true) :
    (updateExistingEvent e pd sid).verified_sessions
        = joinComma (loadSessions e.verified_sessions ++ [sid]) ∧
      (updateExistingEvent e pd sid).verification_count
        = ((loadSessions e.verified_sessions ++ [sid]).length : Int) ∧
      (updateExistingEvent e pd sid).data_confidence
        = min 2 (1 + (2/10) *
            (((loadSessions e.verified_sessions ++ [sid]).length : ℚ) - 1))
    := by
  have hcond : (decide (sid ∉ loadSessions e.verified_sessions) &&
      (damageMatches e pd.damage_points || rankingMatches e pd.ranking))
      = true := by simp [hnew, hagree]
  have hv : applyVerification e pd sid
      = { e with
          verified_sessions :=
            joinComma (loadSessions e.verified_sessions ++ [sid]),
          verification_count :=
            (((loadSessions e.verified_sessions ++ [sid]).length : Int)),
          data_confidence :=
            min 2 (1 + (2/10) *
              (((loadSessions e.verified_sessions ++ [sid]).length : ℚ)
                - 1)) } := by
    simp only [applyVerification, hcond, if_true]
  refine ⟨?_, ?_, ?_⟩ <;>
    simp only [updateExistingEvent, applyConfidence_preserved,
      applyRankLower_preserved, applyRankFill_preserved,
      applyDamage_preserved, hv]

theorem find?_append_of_none (p : OCREventData → Bool)
    (s0 : List OCREventData) (r : OCREventData)
    (h0 : ∀ e ∈ s0, p e = false) (hr : p r = true) :
    (s0 ++ [r]).find? p = some r := by
  induction s0 with
  | nil => simp [List.find?, hr]
  | cons e rest ih =>
      rw [List.cons_append, List.find?_cons_of_neg _ (by simp [h0 e (by simp)])]
      exact ih (fun x hx => h0 x (by simp [hx]))

end KingshotOCR

namespace KingshotOCR

/-- Invariant of the consensus fold: once the store is `s0 ++ [r]` with a
well-formed verified-session list, each further agreeing upload from a new
session mutates `r` in place, appending the session id and recomputing
count and confidence. -/
theorem upsertAll_invariant (en et pn : String) (day : Int)
    (s0 : List OCREventData)
    (h0 : ∀ e ∈ s0, matchesEventKey en pn day e = false) :
    ∀ (us : List Upload) (r : OCREventData) (ids : List String),
      (∀ u ∈ us, u.pd.player_name = pn) →
      (∀ u ∈ us, ⌊u.eventDate⌋ = day) →
      (∀ u ∈ us, u.sessionId ≠ "" ∧ ',' ∉ u.sessionId.toList) →
      (∀ u ∈ us, u.sessionId ∉ ids) →
      (us.map Upload.sessionId).Nodup →
      matchesEventKey en pn day r = true →
      loadSessions r.verified_sessions = ids →
      ids ≠ [] →
      (∀ x ∈ ids, x ≠ "" ∧ ',' ∉ x.toList) →
      r.verification_count = (ids.length : Int) →
      r.data_confidence = min 2 (1 + (2/10) * ((ids.length : ℚ) - 1)) →
      AgreesTrace en et pn day (s0 ++ [r]) us →
      ∃ r', upsertAll en et (s0 ++ [r]) us = s0 ++ [r'] ∧
        matchesEventKey en pn day r' = true ∧
        loadSessions r'.verified_sessions = ids ++ us.map Upload.sessionId ∧
        r'.verification_count
          = ((ids ++ us.map Upload.sessionId).length : Int) ∧
        r'.data_confidence = min 2 (1 + (2/10) *
          (((ids ++ us.map Upload.sessionId).length : ℚ) - 1))
  | [], r, ids, _, _, _, _, _, hkey, hload, _, _, hcount, hconf, _ =>
      ⟨r, by simp [upsertAll], hkey, by simp [hload], by simp [hcount],
        by simp [hconf]⟩
  | u :: us, r, ids, hpn, hday, hgood, hnotin, hnodup, hkey, hload, hne,
      hidsgood, hcount, hconf, htrace => by
    have hfind : (s0 ++ [r]).find? (matchesEventKey en pn day) = some r :=
      find?_append_of_none _ s0 r h0 hkey
    have hagree : (damageMatches r u.pd.damage_points ||
        rankingMatches r u.pd.ranking) = true := htrace.1 r hfind
    have hupn : u.pd.player_name = pn := hpn u (by simp)
    have huday : ⌊u.eventDate⌋ = day := hday u (by simp)
    have hstep : matchAndStoreEvent u.pd u.sessionId en et u.eventDate u.fid
        (s0 ++ [r]) = s0 ++ [updateExistingEvent r u.pd u.sessionId] := by
      apply matchAndStoreEvent_at_end
      · intro e he
        rw [hupn, huday]
        exact h0 e he
      · rw [hupn, huday]
        exact hkey
    have hnew : u.sessionId ∉ loadSessions r.verified_sessions := by
      rw [hload]
      exact hnotin u (by simp)
    obtain ⟨hv1, hv2, hv3⟩ :=
      updateExistingEvent_verified r u.pd u.sessionId hnew hagree
    rw [hload] at hv1 hv2 hv3
    have hids' :
        loadSessions (updateExistingEvent r u.pd u.sessionId).verified_sessions
          = ids ++ [u.sessionId] := by
      rw [hv1]
      exact loadSessions_joinComma (ids ++ [u.sessionId]) (by simp)
        (by
          intro x hx
          rcases List.mem_append.mp hx with h | h
          · exact hidsgood x h
          · simp only [List.mem_singleton] at h
            subst h
            exact hgood u (by simp))
    have hkey' : matchesEventKey en pn day
        (updateExistingEvent r u.pd u.sessionId) = true := by
      rw [matchesEventKey_update]
      exact hkey
    have htrace' : AgreesTrace en et pn day
        (s0 ++ [updateExistingEvent r u.pd u.sessionId]) us := by
      have h2 := htrace.2
      rwa [hstep] at h2
    obtain ⟨r'', hstore, hk, hl, hc, hd⟩ :=
      upsertAll_invariant en et pn day s0 h0 us
        (updateExistingEvent r u.pd u.sessionId) (ids ++ [u.sessionId])
        (fun v hv => hpn v (by simp [hv]))
        (fun v hv => hday v (by simp [hv]))
        (fun v hv => hgood v (by simp [hv]))
        (by
          intro v hv hmem
          rcases List.mem_append.mp hmem with h | h
          · exact hnotin v (by simp [hv]) h
          · simp only [List.mem_singleton] at h
            have : v.sessionId ∈ us.map Upload.sessionId :=
              List.mem_map.mpr ⟨v, hv, rfl⟩
            rw [h] at this
            exact (List.nodup_cons.mp (by simpa using hnodup)).1 this)
        (List.nodup_cons.mp (by simpa using hnodup)).2
        hkey' hids' (by simp)
        (by
          intro x hx
          rcases List.mem_append.mp hx with h | h
          · exact hidsgood x h
          · simp only [List.mem_singleton] at h
            subst h
            exact hgood u (by simp))
        (by rw [hv2]) (by rw [hv3])
        htrace'
    refine ⟨r'', ?_, hk, ?_, ?_, ?_⟩
    · rw [upsertAll, hstep]
      exact hstore
    · rw [hl]
      simp
    · rw [hc]
      simp
    · rw [hd]
      simp

end KingshotOCR

namespace KingshotOCR

/-- C2.  For N >= 1 uploads with pairwise distinct, nonempty, comma-free
session ids that successively report the same `(event, player, day)` with
observations agreeing with the stored record at each step, the single
resulting row carries `verification_count = N`, a verified session-id list
that is exactly the N distinct ids, and
`data_confidence = min(2.0, 1.0 + 0.2 * (N - 1))`. -/
theorem consensus_monotonicity
    (s0 : List OCREventData) (en et pn : String) (day : Int)
    (us : List Upload) (hne : us ≠ [])
    (hpn : ∀ u ∈ us, u.pd.player_name = pn)
    (hday : ∀ u ∈ us, ⌊u.eventDate⌋ = day)
    (hgood : ∀ u ∈ us, u.sessionId ≠ "" ∧ ',' ∉ u.sessionId.toList)
    (hnodup : (us.map Upload.sessionId).Nodup)
    (h0 : ∀ e ∈ s0, matchesEventKey en pn day e = false)
    (htrace : AgreesTrace en et pn day s0 us) :
    ∃ r, upsertAll en et s0 us = s0 ++ [r] ∧
      matchesEventKey en pn day r = true ∧
      loadSessions r.verified_sessions = us.map Upload.sessionId ∧
      (loadSessions r.verified_sessions).Nodup ∧
      r.verification_count = (us.length : Int) ∧
      r.data_confidence = min 2 (1 + (2/10) * ((us.length : ℚ) - 1)) := by
  match us, hne with
  | u :: us', _ =>
    have hupn : u.pd.player_name = pn := hpn u (by simp)
    have huday : ⌊u.eventDate⌋ = day := hday u (by simp)
    have hstep1 : matchAndStoreEvent u.pd u.sessionId en et u.eventDate
        u.fid s0
        = s0 ++ [newEventRecord u.pd u.sessionId en et u.eventDate u.fid] :=
      matchAndStoreEvent_no_match u.pd u.sessionId en et u.eventDate u.fid
        s0 (by
          intro e he
          rw [hupn, huday]
          exact h0 e he)
    have hkey1 : matchesEventKey en pn day
        (newEventRecord u.pd u.sessionId en et u.eventDate u.fid) = true := by
      rw [← hupn, ← huday]
      exact newEventRecord_key u.pd u.sessionId en et u.eventDate u.fid
    have hload1 : loadSessions
        (newEventRecord u.pd u.sessionId en et u.eventDate
          u.fid).verified_sessions = [u.sessionId] :=
      loadSessions_single u.sessionId (hgood u (by simp)).1
        (hgood u (by simp)).2
    have htrace' : AgreesTrace en et pn day
        (s0 ++ [newEventRecord u.pd u.sessionId en et u.eventDate u.fid])
        us' := by
      have h2 := htrace.2
      rwa [hstep1] at h2
    obtain ⟨r', hstore, hk, hl, hc, hd⟩ :=
      upsertAll_invariant en et pn day s0 h0 us'
        (newEventRecord u.pd u.sessionId en et u.eventDate u.fid)
        [u.sessionId]
        (fun v hv => hpn v (by simp [hv]))
        (fun v hv => hday v (by simp [hv]))
        (fun v hv => hgood v (by simp [hv]))
        (by
          intro v hv hmem
          simp only [List.mem_singleton] at hmem
          have : v.sessionId ∈ us'.map Upload.sessionId :=
            List.mem_map.mpr ⟨v, hv, rfl⟩
          rw [hmem] at this
          exact (List.nodup_cons.mp (by simpa using hnodup)).1 this)
        (List.nodup_cons.mp (by simpa using hnodup)).2
        hkey1 hload1 (by simp)
        (by
          intro x hx
          simp only [List.mem_singleton] at hx
          subst hx
          exact hgood u (by simp))
        (by simp [newEventRecord])
        (by norm_num [newEventRecord])
        htrace'
    refine ⟨r', ?_, hk, ?_, ?_, ?_, ?_⟩
    · rw [upsertAll, hstep1]
      exact hstore
    · rw [hl]
      simp
    · rw [hl]
      have : (u :: us').map Upload.sessionId
          = [u.sessionId] ++ us'.map Upload.sessionId := by simp
      rw [← this]
      exact hnodup
    · rw [hc]
      simp
    · rw [hd]
      simp

end KingshotOCR

namespace KingshotOCR

/-- Witness for `consensus_monotonicity`: three agreeing uploads of the
same result on day 7 from sessions `s1`, `s2`, `s3`.  Instantiating the
conclusion, the row ends with `verification_count = 3` and
`data_confidence = min 2 (1 + 0.2 * 2) = 1.4`. -/
theorem consensus_monotonicity_witness :
    ∃ r, upsertAll "E" "T" [] [upA, upB, upC] = [] ++ [r] ∧
      matchesEventKey "E" "[AB]p" 7 r = true ∧
      loadSessions r.verified_sessions
        = [upA, upB, upC].map Upload.sessionId ∧
      (loadSessions r.verified_sessions).Nodup ∧
      r.verification_count = (([upA, upB, upC] : List Upload).length : Int) ∧
      r.data_confidence = min 2 (1 + (2/10) *
        ((([upA, upB, upC] : List Upload).length : ℚ) - 1)) := by
  have hk1 : matchesEventKey "E" "[AB]p" 7
      (newEventRecord pdC1 "s1" "E" "T" 7 none) = true := by
    unfold matchesEventKey newEventRecord
    norm_num [pdC1]
  have hs1 : matchAndStoreEvent pdC1 "s1" "E" "T" 7 none []
      = [newEventRecord pdC1 "s1" "E" "T" 7 none] := rfl
  have hk1' : matchesEventKey "E" pdC2.player_name ⌊(29/4 : ℚ)⌋
      (newEventRecord pdC1 "s1" "E" "T" 7 none) = true := by
    unfold matchesEventKey newEventRecord
    norm_num [pdC1, pdC2]
  have hs2 : matchAndStoreEvent pdC2 "s2" "E" "T" (29/4) none
      [newEventRecord pdC1 "s1" "E" "T" 7 none]
      = [updateExistingEvent (newEventRecord pdC1 "s1" "E" "T" 7 none)
          pdC2 "s2"] := by
    simp only [matchAndStoreEvent]
    rw [hk1']
    simp
  have hrank2 : (updateExistingEvent
      (newEventRecord pdC1 "s1" "E" "T" 7 none) pdC2 "s2").ranking
      = some 2 := by
    unfold updateExistingEvent
    rw [(applyConfidence_preserved _ _).2.2.2.1]
    decide
  apply consensus_monotonicity [] "E" "T" "[AB]p" 7 [upA, upB, upC]
    (by simp)
    (by intro u hu; fin_cases hu <;> rfl)
    (by intro u hu; fin_cases hu <;> norm_num [upA, upB, upC])
    (by intro u hu; fin_cases hu <;> exact ⟨by decide, by decide⟩)
    (by decide)
    (by simp)
  refine ⟨?_, ?_, ?_, trivial⟩
  · intro e he
    exact absurd he (by simp)
  · intro e he
    rw [show matchAndStoreEvent upA.pd upA.sessionId "E" "T" upA.eventDate
        upA.fid [] = [newEventRecord pdC1 "s1" "E" "T" 7 none] from rfl]
        at he
    rw [List.find?_cons_of_pos _ hk1] at he
    obtain rfl : newEventRecord pdC1 "s1" "E" "T" 7 none = e :=
      Option.some.inj he
    decide
  · intro e he
    rw [show matchAndStoreEvent upB.pd upB.sessionId "E" "T" upB.eventDate
        upB.fid (matchAndStoreEvent upA.pd upA.sessionId "E" "T"
          upA.eventDate upA.fid [])
        = matchAndStoreEvent pdC2 "s2" "E" "T" (29/4) none
          [newEventRecord pdC1 "s1" "E" "T" 7 none] from rfl, hs2] at he
    have hk2 : matchesEventKey "E" "[AB]p" 7
        (updateExistingEvent (newEventRecord pdC1 "s1" "E" "T" 7 none)
          pdC2 "s2") = true := by
      rw [matchesEventKey_update]
      exact hk1
    rw [List.find?_cons_of_pos _ hk2] at he
    obtain rfl := Option.some.inj he
    have hrm : rankingMatches (updateExistingEvent
        (newEventRecord pdC1 "s1" "E" "T" 7 none) pdC2 "s2")
        upC.pd.ranking = true := by
      unfold rankingMatches
      rw [show upC.pd.ranking = some 2 from rfl, hrank2]
      decide
    simp [hrm]

end KingshotOCR
